import Mathlib

/-!
Verification development for the USCIS-changes crawler
(`src/crawler/crawler.py`).  The script is a single-pass pipeline:
fetch each configured source, fingerprint the content with SHA-256,
skip the source when the fingerprint matches the stored index entry,
otherwise write a diff artifact, summarize it, write dated and
"latest" snapshots, update the in-memory index and change log, and
finally persist the index, the change log truncated to 200 entries,
and a regenerated landing page.

The embedding below is shallow: external effects (HTTP fetch, the
OpenAI call, the clock) are supplied by an `Env` record; file writes
are recorded as an ordered trace of `Ev` events; the bookkeeping state
(`hash_index`, `change_log`) is threaded explicitly.
-/

set_option maxRecDepth 2000000

/-! ## SHA-256 (embedding of `hashlib.sha256(text.encode()).hexdigest()`) -/

/-- Word size modulus for 32-bit arithmetic. -/
def M32 : Nat := 4294967296

/-- Right rotation of a 32-bit word. -/
def rotr (n x : Nat) : Nat := ((x >>> n) ||| (x <<< (32 - n))) % M32

/-- SHA-256 Ch function. -/
def chF (x y z : Nat) : Nat := (x &&& y) ^^^ ((x ^^^ 4294967295) &&& z)

/-- SHA-256 Maj function. -/
def majF (x y z : Nat) : Nat := (x &&& y) ^^^ (x &&& z) ^^^ (y &&& z)

/-- SHA-256 big Sigma0. -/
def bs0 (x : Nat) : Nat := rotr 2 x ^^^ rotr 13 x ^^^ rotr 22 x

/-- SHA-256 big Sigma1. -/
def bs1 (x : Nat) : Nat := rotr 6 x ^^^ rotr 11 x ^^^ rotr 25 x

/-- SHA-256 small sigma0. -/
def ss0 (x : Nat) : Nat := rotr 7 x ^^^ rotr 18 x ^^^ (x >>> 3)

/-- SHA-256 small sigma1. -/
def ss1 (x : Nat) : Nat := rotr 17 x ^^^ rotr 19 x ^^^ (x >>> 10)

/-- SHA-256 round constants. -/
def K256 : List Nat :=
  [1116352408, 1899447441, 3049323471, 3921009573, 961987163, 1508970993,
   2453635748, 2870763221, 3624381080, 310598401, 607225278, 1426881987,
   1925078388, 2162078206, 2614888103, 3248222580, 3835390401, 4022224774,
   264347078, 604807628, 770255983, 1249150122, 1555081692, 1996064986,
   2554220882, 2821834349, 2952996808, 3210313671, 3336571891, 3584528711,
   113926993, 338241895, 666307205, 773529912, 1294757372, 1396182291,
   1695183700, 1986661051, 2177026350, 2456956037, 2730485921, 2820302411,
   3259730800, 3345764771, 3516065817, 3600352804, 4094571909, 275423344,
   430227734, 506948616, 659060556, 883997877, 958139571, 1322822218,
   1537002063, 1747873779, 1955562222, 2024104815, 2227730452, 2361852424,
   2428436474, 2756734187, 3204031479, 3329325298]

/-- SHA-256 initial hash value. -/
def H256 : List Nat :=
  [1779033703, 3144134277, 1013904242, 2773480762,
   1359893119, 2600822924, 528734635, 1541459225]

/-- The eight working variables of the SHA-256 compression loop. -/
structure W8 where
  a : Nat
  b : Nat
  c : Nat
  d : Nat
  e : Nat
  f : Nat
  g : Nat
  h : Nat

/-- One round of the SHA-256 compression function. -/
def round256 (kw : Nat) (s : W8) : W8 :=
  let t1 := (s.h + bs1 s.e + chF s.e s.f s.g + kw) % M32
  let t2 := (bs0 s.a + majF s.a s.b s.c) % M32
  ⟨(t1 + t2) % M32, s.a, s.b, s.c, (s.d + t1) % M32, s.e, s.f, s.g⟩

/-- Message-schedule extension: grows the 16 block words to 64 words. -/
def extendW (w : List Nat) : List Nat :=
  (List.range 48).foldl
    (fun acc _ =>
      let n := acc.length
      let x := (ss1 (acc.getD (n - 2) 0) + acc.getD (n - 7) 0
                + ss0 (acc.getD (n - 15) 0) + acc.getD (n - 16) 0) % M32
      acc ++ [x]) w

/-- SHA-256 compression of one 16-word block into the running hash. -/
def compress256 (hs : List Nat) (block : List Nat) : List Nat :=
  let w := extendW block
  let kw := K256.zipWith (fun k x => (k + x) % M32) w
  let s0 : W8 := ⟨hs.getD 0 0, hs.getD 1 0, hs.getD 2 0, hs.getD 3 0,
                  hs.getD 4 0, hs.getD 5 0, hs.getD 6 0, hs.getD 7 0⟩
  let s := kw.foldl (fun s kwi => round256 kwi s) s0
  List.zipWith (fun x y => (x + y) % M32) hs [s.a, s.b, s.c, s.d, s.e, s.f, s.g, s.h]

/-- UTF-8 encoding of one character (model of Python `str.encode`). -/
def utf8Bytes (c : Char) : List Nat :=
  let n := c.toNat
  if n < 128 then [n]
  else if n < 2048 then [192 ||| (n >>> 6), 128 ||| (n % 64)]
  else if n < 65536 then
    [224 ||| (n >>> 12), 128 ||| ((n >>> 6) % 64), 128 ||| (n % 64)]
  else
    [240 ||| (n >>> 18), 128 ||| ((n >>> 12) % 64), 128 ||| ((n >>> 6) % 64), 128 ||| (n % 64)]

/-- UTF-8 bytes of a string. -/
def strBytes (s : String) : List Nat := (s.data.map utf8Bytes).flatten

/-- Big-endian byte decomposition of a number into `k` bytes. -/
def bytesBE : Nat → Nat → List Nat
  | 0, _ => []
  | k + 1, n => ((n >>> (8 * k)) % 256) :: bytesBE k n

/-- SHA-256 message padding: a 0x80 byte, zeros to 56 mod 64, then the
64-bit big-endian bit length. -/
def padMsg (msg : List Nat) : List Nat :=
  let L := msg.length
  let k := (119 - (L % 64)) % 64
  msg ++ [128] ++ List.replicate k 0 ++ bytesBE 8 (8 * L)

/-- Fold four bytes into one big-endian 32-bit word. -/
def word32 (b0 b1 b2 b3 : Nat) : Nat := ((b0 * 256 + b1) * 256 + b2) * 256 + b3

/-- Group a list of bytes into 16-word blocks (the input length is a
multiple of 64 after padding; `fuel` bounds the recursion). -/
def blocksAux : Nat → List Nat → List (List Nat)
  | 0, _ => []
  | _ + 1, [] => []
  | fuel + 1, l =>
    ((List.range 16).map (fun i =>
      word32 (l.getD (4 * i) 0) (l.getD (4 * i + 1) 0)
             (l.getD (4 * i + 2) 0) (l.getD (4 * i + 3) 0)))
    :: blocksAux fuel (l.drop 64)

/-- All 16-word blocks of a padded message. -/
def blocksOf (l : List Nat) : List (List Nat) := blocksAux l.length l

/-- The eight 32-bit words of the SHA-256 digest of a byte string. -/
def shaWords (msg : List Nat) : List Nat :=
  (blocksOf (padMsg msg)).foldl compress256 H256

/-- The SHA-256 digest of a string as a 256-bit number. -/
def sha256Nat (s : String) : Nat :=
  (shaWords (strBytes s)).foldl (fun acc h => acc * M32 + h) 0

/-- Hexadecimal digit character. -/
def hexChar (d : Nat) : Char :=
  "0123456789abcdef".data.getD d (Char.ofNat 48)

/-- Fixed-width hexadecimal rendering, least-significant digit first
into the accumulator, so the result is big-endian. -/
def hexAux : Nat → Nat → List Char → List Char
  | 0, _, acc => acc
  | k + 1, n, acc => hexAux k (n / 16) (hexChar (n % 16) :: acc)

/-- Embedding of `sha256` from `crawler.py`:
`hashlib.sha256(text.encode()).hexdigest()` — the 64-hex-character
digest of the UTF-8 bytes of `text`. -/
def sha256 (text : String) : String := String.mk (hexAux 64 (sha256Nat text) [])

/-! ## Line splitting (model of Python `str.splitlines`) -/

/-- Python line-boundary characters other than the carriage return,
which is handled separately so that a CRLF pair counts once. -/
def isPyLineBreak (c : Char) : Bool :=
  c = '\n' || c = '\x0b' || c = '\x0c' || c = '\x1c' || c = '\x1d' ||
  c = '\x1e' || c = '\x85' || c = '\u2028' || c = '\u2029'

/-- Accumulating scanner behind `splitlines`. -/
def splitlinesAux : List Char → List Char → List String
  | [], acc => if acc.isEmpty then [] else [String.mk acc.reverse]
  | '\r' :: '\n' :: rest, acc => String.mk acc.reverse :: splitlinesAux rest []
  | '\r' :: rest, acc => String.mk acc.reverse :: splitlinesAux rest []
  | c :: rest, acc =>
    if isPyLineBreak c then String.mk acc.reverse :: splitlinesAux rest []
    else splitlinesAux rest (c :: acc)

/-- Model of the stdlib collaborator `str.splitlines`: splits on the
Python universal line boundaries, treating CRLF as one boundary, with
no trailing empty line; the empty string yields the empty list. -/
def splitlines (s : String) : List String := splitlinesAux s.data []

/-! ## Line diff (model of the stdlib collaborator `difflib`)

`diff_html` in `crawler.py` calls `difflib.HtmlDiff().make_file` on the
split lines of the old and new content.  The structural content of that
rendering — which line ranges come out as equal / insert / delete /
replace — is produced by `difflib.SequenceMatcher`; the model below
reproduces its matching-block recursion (longest matching block, then
recurse on both sides), with fuel bounding the recursion and without
the junk heuristics, and renders the opcodes compactly instead of
reproducing difflib's exact HTML table markup. -/

/-- One opcode of the line diff, in `difflib.get_opcodes` form. -/
structure OpcodeT where
  tag : String
  a1 : Nat
  a2 : Nat
  b1 : Nat
  b2 : Nat
deriving DecidableEq

/-- Length of the common run of lines starting at positions `i`, `j`. -/
def matchLenAux : Nat → List String → List String → Nat → Nat → Nat
  | 0, _, _, _, _ => 0
  | fuel + 1, a, b, i, j =>
    match a[i]?, b[j]? with
    | some x, some y => if x = y then 1 + matchLenAux fuel a b (i + 1) (j + 1) else 0
    | _, _ => 0

/-- Length of the common run of lines starting at positions `i`, `j`. -/
def matchLen (a b : List String) (i j : Nat) : Nat :=
  matchLenAux (a.length + 1) a b i j

/-- Longest matching block inside the window `[alo, ahi) × [blo, bhi)`:
the block of maximal size, earliest in `a` then in `b` on ties. -/
def longestMatch (a b : List String) (alo ahi blo bhi : Nat) : Nat × Nat × Nat :=
  (List.range (ahi - alo)).foldl
    (fun best di =>
      let i := alo + di
      (List.range (bhi - blo)).foldl
        (fun best dj =>
          let j := blo + dj
          let k := min (matchLen a b i j) (min (ahi - i) (bhi - j))
          if best.2.2 < k then (i, j, k) else best)
        best)
    (alo, blo, 0)

/-- Matching blocks of the window, recursing on the two sides of the
longest matching block; `fuel` bounds the recursion depth. -/
def matchingBlocksAux : Nat → List String → List String → Nat → Nat → Nat → Nat →
    List (Nat × Nat × Nat)
  | 0, _, _, _, _, _, _ => []
  | fuel + 1, a, b, alo, ahi, blo, bhi =>
    let m := longestMatch a b alo ahi blo bhi
    if m.2.2 = 0 then []
    else
      matchingBlocksAux fuel a b alo m.1 blo m.2.1 ++ [m] ++
      matchingBlocksAux fuel a b (m.1 + m.2.2) ahi (m.2.1 + m.2.2) bhi

/-- All matching blocks, including the terminal zero-size block. -/
def matchingBlocks (a b : List String) : List (Nat × Nat × Nat) :=
  matchingBlocksAux (a.length + b.length + 1) a b 0 a.length 0 b.length ++
  [(a.length, b.length, 0)]

/-- Opcodes from matching blocks, walking both sequences in step. -/
def opcodesFromBlocks : Nat → Nat → List (Nat × Nat × Nat) → List OpcodeT
  | _, _, [] => []
  | i, j, (ai, bj, k) :: rest =>
    let pre : List OpcodeT :=
      if i < ai ∧ j < bj then [⟨"replace", i, ai, j, bj⟩]
      else if i < ai then [⟨"delete", i, ai, j, bj⟩]
      else if j < bj then [⟨"insert", i, ai, j, bj⟩]
      else []
    let eqs : List OpcodeT := if 0 < k then [⟨"equal", ai, ai + k, bj, bj + k⟩] else []
    pre ++ eqs ++ opcodesFromBlocks (ai + k) (bj + k) rest

/-- The opcodes of the line diff between `a` and `b`. -/
def scOpcodes (a b : List String) : List OpcodeT :=
  opcodesFromBlocks 0 0 (matchingBlocks a b)

/-- Compact rendering of one opcode as a table row: the tag and the
line ranges it covers on each side. -/
def renderOp (a b : List String) (op : OpcodeT) : String :=
  "<tr class=\x27" ++ op.tag ++ "\x27><td>" ++
  String.intercalate "\n" ((a.drop op.a1).take (op.a2 - op.a1)) ++
  "</td><td>" ++
  String.intercalate "\n" ((b.drop op.b1).take (op.b2 - op.b1)) ++
  "</td></tr>"

/-- Model of `difflib.HtmlDiff().make_file(old, new, fromdesc="previous",
todesc="current", context=True, numlines=2)`: an HTML document whose
table rows render the opcodes of the line diff. -/
def makeFileModel (a b : List String) : String :=
  "<html><head><title>difflib</title></head><body><table><tr><th>previous</th><th>current</th></tr>" ++
  String.intercalate "" ((scOpcodes a b).map (renderOp a b)) ++
  "</table></body></html>"

/-- Embedding of `diff_html` from `crawler.py`: the side-by-side diff of
the split lines of `old` and `new`. -/
def diff_html (old new : String) : String :=
  makeFileModel (splitlines old) (splitlines new)

/-! ## Summarization (embedding of `summarize` from `crawler.py`) -/

/-- ASCII whitespace, model of the regex class backslash-s. -/
def isPySpace (c : Char) : Bool :=
  c = ' ' || c = '\t' || c = '\n' || c = '\r' || c = '\x0b' || c = '\x0c'

/-- Collapse each maximal whitespace run to one space (model of
`re.sub` with pattern backslash-s-plus); the flag records whether the
previous character was part of a run already emitted. -/
def collapseWsAux : List Char → Bool → List Char
  | [], _ => []
  | c :: rest, prevSpace =>
    if isPySpace c then
      (if prevSpace then [] else [' ']) ++ collapseWsAux rest true
    else c :: collapseWsAux rest false

/-- Scan for the closing angle bracket of a tag body of at least one
character, returning the remainder after it. -/
def tagEndAux : List Char → Option (List Char)
  | [] => none
  | '>' :: rest => some rest
  | _ :: rest => tagEndAux rest

/-- Match one `<[^>]+>` occurrence starting right after an opening
angle bracket. -/
def findTagEnd : List Char → Option (List Char)
  | [] => none
  | '>' :: _ => none
  | _ :: rest => tagEndAux rest

/-- Replace each `<[^>]+>` match by one space (model of `re.sub` on
that pattern); `fuel` bounds the scan. -/
def stripTagsAux : Nat → List Char → List Char
  | 0, l => l
  | _ + 1, [] => []
  | fuel + 1, c :: rest =>
    if c = '<' then
      match findTagEnd rest with
      | some rest2 => ' ' :: stripTagsAux fuel rest2
      | none => '<' :: stripTagsAux fuel rest
    else c :: stripTagsAux fuel rest

/-- Model of the stdlib collaborator `html.unescape`, restricted to the
core named and numeric entities the crawler's diffs contain. -/
def htmlUnescapeModel : List Char → List Char
  | '&' :: 'a' :: 'm' :: 'p' :: ';' :: rest => '&' :: htmlUnescapeModel rest
  | '&' :: 'l' :: 't' :: ';' :: rest => '<' :: htmlUnescapeModel rest
  | '&' :: 'g' :: 't' :: ';' :: rest => '>' :: htmlUnescapeModel rest
  | '&' :: 'q' :: 'u' :: 'o' :: 't' :: ';' :: rest =>
    Char.ofNat 34 :: htmlUnescapeModel rest
  | '&' :: '#' :: '3' :: '9' :: ';' :: rest =>
    Char.ofNat 39 :: htmlUnescapeModel rest
  | c :: rest => c :: htmlUnescapeModel rest
  | [] => []

/-- The crude text extraction `summarize` applies to the diff before
submission: strip tags, unescape, collapse whitespace, cap at 4000
characters. -/
def promptPlain (diffHtmlText : String) : String :=
  (String.mk (collapseWsAux
    (htmlUnescapeModel (stripTagsAux (diffHtmlText.data.length + 1) diffHtmlText.data))
    false)).take 4000

/-- The user-message content submitted to the external model. -/
def userContent (plain : String) : String :=
  "Summarize the following USCIS website change in **at most three concise bullet points**. Return **only** the bullet list:\n\n" ++ plain

/-- Embedding of `summarize` from `crawler.py`.  `apiKey` is the
`OPENAI_API_KEY` value (`none` when unset; the empty string is falsy in
Python, hence also treated as unconfigured); `gpt` is the external
chat-completion call, returning the reply content or failing.  Missing
key yields the fixed not-configured string; a failing call yields the
fixed unavailable string; a reply is stripped of surrounding
whitespace. -/
def summarize (apiKey : Option String) (gpt : String → Except String String)
    (diffHtmlText : String) : String :=
  if apiKey.getD "" = "" then "OpenAI API key not configured."
  else
    let plain := promptPlain diffHtmlText
    match gpt (userContent plain) with
    | Except.ok content => content.trim
    | Except.error _ => "Summary unavailable."

/-! ## Change records and the landing page -/

/-- One Change Record as stored in `changes_log.json`:
`ts`, `title`, `path`, `summary`. -/
structure Entry where
  ts : String
  title : String
  path : String
  summary : String
deriving DecidableEq

/-- Lookup, model of `dict.get` on the fingerprint index, a Python
dict modelled as an association list with unique keys in insertion
order. -/
def dictGet : List (String × String) → String → Option String
  | [], _ => none
  | (k, v) :: rest, key => if k = key then some v else dictGet rest key

/-- Update, model of `dict.__setitem__`: replace in place or append. -/
def dictSet : List (String × String) → String → String → List (String × String)
  | [], key, val => [(key, val)]
  | (k, v) :: rest, key, val =>
    if k = key then (key, val) :: rest else (k, v) :: dictSet rest key val

/-- Per-character HTML escaping (model of `html.escape` with its
default quoting of both quote characters). -/
def escChar (c : Char) : List Char :=
  if c = '&' then "&amp;".data
  else if c = '<' then "&lt;".data
  else if c = '>' then "&gt;".data
  else if c = Char.ofNat 34 then "&quot;".data
  else if c = Char.ofNat 39 then "&#x27;".data
  else [c]

/-- Model of `html.escape`. -/
def htmlEscape (s : String) : String := String.mk ((s.data.map escChar).flatten)

/-- One landing-page row, embedding of the list item built in
`write_home`: the date prefix of the timestamp, the unescaped diff
path, and the escaped title and summary. -/
def homeRow (e : Entry) : String :=
  "<li>" ++ e.ts.take 10 ++ " – <a href=\x27changes/" ++ e.path ++ "\x27>" ++
  htmlEscape e.title ++ "</a><br><em>" ++ htmlEscape e.summary ++ "</em></li>"

/-- Embedding of `write_home` from `crawler.py`: the full
`docs/index.html` document built from the first 50 entries. -/
def write_home (entries : List Entry) : String :=
  "<!doctype html><html><head><meta charset=\x27utf-8\x27><title>USCIS Changes</title></head><body><h1>Latest USCIS Updates</h1><ul>\n" ++
  String.intercalate "\n" ((entries.take 50).map homeRow) ++
  "\n</ul></body></html>"

/-! ## The pipeline (embedding of `main` from `crawler.py`) -/

/-- The fixed source configuration `SOURCES`. -/
def SOURCES : List (String × String) :=
  [("news", "https://www.uscis.gov/newsroom/all-news"),
   ("alerts", "https://www.uscis.gov/newsroom/alerts"),
   ("policy", "https://www.uscis.gov/policy-manual/updates")]

/-- External effects of one run: the HTTP fetch (content or
`FetchError`, modelled as the error message of the raised exception),
the prior "latest" snapshot on disk per source name, the credential,
the external summarization call, and the clock, supplying per source
iteration the `%Y%m%dT%H%M%S` stamp, the ISO date, and the ISO
timestamp produced by the three `utc_now()` calls. -/
structure Env where
  fetch : String → Except String String
  latest : String → Option String
  apiKey : Option String
  gpt : String → Except String String
  times : Nat → String × String × String

/-- The in-memory bookkeeping state of a run. -/
structure BState where
  hashIndex : List (String × String)
  changeLog : List Entry
deriving DecidableEq

/-- One file-write event, in the order the run performs them. -/
inductive Ev where
  | evDiff (path content : String)
  | evDaily (path content : String)
  | evLatest (path content : String)
  | evIndexFile (idx : List (String × String))
  | evLogFile (log : List Entry)
  | evHome (page : String)
deriving DecidableEq

/-- The diff artifact file name for one source and second-precision
timestamp, embedding of `f"{name}-{ts_str}.html"`. -/
def diffName (name tsStr : String) : String := name ++ "-" ++ tsStr ++ ".html"

/-- Embedding of one iteration of the source loop in `main`: fetch,
fingerprint, and either skip (stored digest equal) or produce the diff
artifact, the summary, both snapshots, and the bookkeeping updates.
The returned event list is in program order: the diff write precedes
the dated snapshot write, which precedes the "latest" snapshot
write. -/
def processSource (env : Env) (i : Nat) (st : BState) (name url : String) :
    Except String (BState × List Ev) :=
  match env.fetch url with
  | Except.error e => Except.error e
  | Except.ok htmlCur =>
    let digest := sha256 htmlCur
    if dictGet st.hashIndex name = some digest then Except.ok (st, [])
    else
      let oldHtml := (env.latest name).getD ""
      let diffText := diff_html oldHtml htmlCur
      let t := env.times i
      let dn := diffName name t.1
      let summary := summarize env.apiKey env.gpt diffText
      let entry : Entry := ⟨t.2.2, name ++ " page updated", dn, summary⟩
      Except.ok
        (⟨dictSet st.hashIndex name digest, entry :: st.changeLog⟩,
         [Ev.evDiff ("docs/changes/" ++ dn) diffText,
          Ev.evDaily ("snapshots/" ++ name ++ "/" ++ t.2.1 ++ ".html") htmlCur,
          Ev.evLatest ("snapshots/" ++ name ++ "/latest.html") htmlCur])

/-- The source loop of `main`: processes the sources in order,
accumulating the write trace; an uncaught fetch exception aborts the
loop, keeping the writes already performed. -/
def runLoop (env : Env) : Nat → BState → List (String × String) →
    List Ev × Except String BState
  | _, st, [] => ([], Except.ok st)
  | i, st, (name, url) :: rest =>
    match processSource env i st name url with
    | Except.error e => ([], Except.error e)
    | Except.ok (st2, evs) =>
      let r := runLoop env (i + 1) st2 rest
      (evs ++ r.1, r.2)

/-- Embedding of `main` from `crawler.py`: run the loop over `SOURCES`;
on success persist the index, the change log truncated to its first
200 entries, and the landing page built from the full in-memory log,
in that order. -/
def runMain (env : Env) (init : BState) : List Ev × Except String BState :=
  match runLoop env 0 init SOURCES with
  | (evs, Except.error e) => (evs, Except.error e)
  | (evs, Except.ok st) =>
    (evs ++ [Ev.evIndexFile st.hashIndex,
             Ev.evLogFile (st.changeLog.take 200),
             Ev.evHome (write_home st.changeLog)],
     Except.ok st)

/-- The paths of the diff artifacts written in a trace. -/
def diffPaths (evs : List Ev) : List String :=
  evs.filterMap (fun ev => match ev with | Ev.evDiff p _ => some p | _ => none)

/-- The events of a loop-step result (none when the step failed). -/
def evListOf (r : Except String (BState × List Ev)) : List Ev :=
  match r with
  | Except.ok (_, evs) => evs
  | Except.error _ => []

/-- Content of the on-disk fingerprint-index file after a trace,
starting from `d`: the last persisted index, if any. -/
def indexFileAfter (d : List (String × String)) : List Ev → List (String × String)
  | [] => d
  | Ev.evIndexFile d2 :: rest => indexFileAfter d2 rest
  | _ :: rest => indexFileAfter d rest

/-- Content of the on-disk change-log file after a trace, starting
from `l`: the last persisted log, if any. -/
def logFileAfter (l : List Entry) : List Ev → List Entry
  | [] => l
  | Ev.evLogFile l2 :: rest => logFileAfter l2 rest
  | _ :: rest => logFileAfter l rest

/-! ## Helper lemmas -/

/-- Each word produced by the modular-addition zip is below the word
modulus. -/
lemma zipAdd_lt (l1 l2 : List Nat) :
    ∀ z ∈ List.zipWith (fun x y => (x + y) % M32) l1 l2, z < M32 := by
  induction l1 generalizing l2 with
  | nil => simp
  | cons a t ih =>
    cases l2 with
    | nil => simp
    | cons b t2 =>
      intro z hz
      simp only [List.zipWith_cons_cons, List.mem_cons] at hz
      rcases hz with h | h
      · subst h; exact Nat.mod_lt _ (by decide)
      · exact ih t2 z h

/-- The compression function preserves the eight-word shape. -/
lemma compress256_length (hs block : List Nat) (h : hs.length = 8) :
    (compress256 hs block).length = 8 := by
  simp [compress256, List.length_zipWith, h]

/-- The running hash is always eight words below the modulus. -/
lemma shaWords_inv (msg : List Nat) :
    (shaWords msg).length = 8 ∧ ∀ z ∈ shaWords msg, z < M32 := by
  unfold shaWords
  generalize blocksOf (padMsg msg) = bs
  have main : ∀ (bs : List (List Nat)) (hs : List Nat), hs.length = 8 →
      ((bs.foldl compress256 hs).length = 8 ∧ ∀ z ∈ bs.foldl compress256 hs, z < M32 ∨ z ∈ hs) := by
    intro bs
    induction bs with
    | nil => intro hs h; exact ⟨h, fun z hz => Or.inr hz⟩
    | cons b rest ih =>
      intro hs h
      have h2 := compress256_length hs b h
      obtain ⟨hl, hz⟩ := ih (compress256 hs b) h2
      refine ⟨hl, fun z hzm => ?_⟩
      rcases hz z hzm with h3 | h3
      · exact Or.inl h3
      · exact Or.inl (zipAdd_lt _ _ z h3)
  obtain ⟨hl, hz⟩ := main bs H256 (by decide)
  refine ⟨hl, fun z hzm => ?_⟩
  rcases hz z hzm with h | h
  · exact h
  · have : ∀ z ∈ H256, z < M32 := by decide
    exact this z h

/-- Folding words below the modulus into an accumulator keeps the
result below the scaled bound. -/
lemma foldl_base_lt (l : List Nat) :
    ∀ acc B : Nat, (∀ z ∈ l, z < M32) → acc < B →
      l.foldl (fun a h => a * M32 + h) acc < B * M32 ^ l.length := by
  induction l with
  | nil => intro acc B _ hacc; simpa using hacc
  | cons x t ih =>
    intro acc B hz hacc
    have hx : x < M32 := hz x (by simp)
    have hsucc : acc + 1 ≤ B := hacc
    have step : acc * M32 + x < B * M32 := by
      calc acc * M32 + x < acc * M32 + M32 := by omega
        _ = (acc + 1) * M32 := by ring
        _ ≤ B * M32 := Nat.mul_le_mul_right M32 hsucc
    have h2 := ih (acc * M32 + x) (B * M32) (fun z hz2 => hz z (List.mem_cons_of_mem x hz2)) step
    calc (x :: t).foldl (fun a h => a * M32 + h) acc
        = t.foldl (fun a h => a * M32 + h) (acc * M32 + x) := by simp
      _ < B * M32 * M32 ^ t.length := h2
      _ = B * M32 ^ (x :: t).length := by
          simp [pow_succ]; ring

/-- The digest value is a 256-bit number. -/
lemma sha256Nat_lt (s : String) : sha256Nat s < M32 ^ 8 := by
  unfold sha256Nat
  obtain ⟨hlen, hz⟩ := shaWords_inv (strBytes s)
  have h := foldl_base_lt (shaWords (strBytes s)) 0 1 hz (by decide)
  rw [hlen] at h
  simpa using h

/-- The fixed-width hex rendering has fixed length. -/
lemma hexAux_length : ∀ (k n : Nat) (acc : List Char),
    (hexAux k n acc).length = k + acc.length := by
  intro k
  induction k with
  | zero => intro n acc; simp [hexAux]
  | succ k ih => intro n acc; rw [hexAux, ih]; simp; omega

/-! ## Claim C6 -/

/-- C6 counterexample: it is not the case that the fingerprint function
is injective on all strings — the digests live in the finite space of
256-bit values, while the content space is infinite, so two distinct
contents share a digest (pigeonhole; no concrete collision is known,
the refutation is non-constructive). -/
theorem C6_fingerprint_counterexample :
    ¬ ∀ A B : String, A ≠ B → sha256 A ≠ sha256 B := by
  intro h
  obtain ⟨n, m, hnm, heq⟩ := Finite.exists_ne_map_eq_of_infinite
    (fun n : Nat => (⟨sha256Nat (String.mk (List.replicate n 'a')), sha256Nat_lt _⟩ : Fin (M32 ^ 8)))
  have hne : String.mk (List.replicate n 'a') ≠ String.mk (List.replicate m 'a') := by
    intro hs
    apply hnm
    have := congrArg String.length hs
    simpa [String.length_mk] using this
  have hval : sha256Nat (String.mk (List.replicate n 'a')) =
      sha256Nat (String.mk (List.replicate m 'a')) := congrArg Fin.val heq
  exact h _ _ hne (by rw [sha256, sha256, hval])

/-- C6 amended: the fingerprint function is deterministic (equal
content yields equal digest), every digest is a fixed-width
64-hex-character string — hence the digest space is finite and
universal injectivity is impossible in principle — and the checked
single-character changes do yield different digests. -/
theorem C6_fingerprint_deterministic_fixed_width :
    (∀ s t : String, s = t → sha256 s = sha256 t)
    ∧ (∀ s : String, (sha256 s).length = 64)
    ∧ sha256 "a" ≠ sha256 "b"
    ∧ sha256 "ab" ≠ sha256 "aa" := by
  refine ⟨fun s t h => by rw [h], fun s => ?_, by decide, by decide⟩
  rw [sha256, String.length_mk, hexAux_length]
  rfl

/-- C6 witness: the determinism part of the amended theorem applied at
a concrete content. -/
theorem C6_fingerprint_witness : sha256 "abc" = sha256 "abc" :=
  C6_fingerprint_deterministic_fixed_width.1 "abc" "abc" rfl

/-- Inversion principle for one loop iteration: a successful step
either skipped an unchanged source (state untouched, no writes) or
processed a changed source (diff, dated snapshot, latest snapshot, in
program order, plus the bookkeeping updates). -/
lemma processSource_cases (env : Env) (i : Nat) (st : BState) (name url : String)
    (st2 : BState) (evs : List Ev)
    (h : processSource env i st name url = Except.ok (st2, evs)) :
    (∃ cur, env.fetch url = Except.ok cur ∧ dictGet st.hashIndex name = some (sha256 cur)
      ∧ st2 = st ∧ evs = [])
    ∨ (∃ cur, env.fetch url = Except.ok cur ∧ dictGet st.hashIndex name ≠ some (sha256 cur)
      ∧ st2 = ⟨dictSet st.hashIndex name (sha256 cur),
          (⟨(env.times i).2.2, name ++ " page updated", diffName name (env.times i).1,
            summarize env.apiKey env.gpt (diff_html ((env.latest name).getD "") cur)⟩ : Entry)
          :: st.changeLog⟩
      ∧ evs = [Ev.evDiff ("docs/changes/" ++ diffName name (env.times i).1)
                 (diff_html ((env.latest name).getD "") cur),
               Ev.evDaily ("snapshots/" ++ name ++ "/" ++ (env.times i).2.1 ++ ".html") cur,
               Ev.evLatest ("snapshots/" ++ name ++ "/latest.html") cur]) := by
  cases hf : env.fetch url with
  | error e =>
    simp only [processSource, hf] at h
    exact Except.noConfusion h
  | ok cur =>
    simp only [processSource, hf] at h
    by_cases hd : dictGet st.hashIndex name = some (sha256 cur)
    · rw [if_pos hd] at h
      injection h with h2
      injection h2 with h3 h4
      exact Or.inl ⟨cur, rfl, hd, h3.symm, h4.symm⟩
    · rw [if_neg hd] at h
      injection h with h2
      injection h2 with h3 h4
      exact Or.inr ⟨cur, rfl, hd, h3.symm, h4.symm⟩

/-! ## Claim C2 -/

/-- C2: when the freshly computed fingerprint equals the digest stored
for the source's name, the iteration performs no side effects for that
source: no write events at all, and the bookkeeping state — the
source's index entry and the change log — is returned unchanged. -/
theorem C2_unchanged_skips_all_side_effects
    (env : Env) (i : Nat) (st : BState) (name url cur : String)
    (hf : env.fetch url = Except.ok cur)
    (hd : dictGet st.hashIndex name = some (sha256 cur)) :
    processSource env i st name url = Except.ok (st, []) := by
  simp only [processSource, hf]
  rw [if_pos hd]

/-- Known digest of the content "x", for concrete witnesses. -/
def digX : String := "2d711642b726b04401627ca9fbac32f5c8530fb1903cc4db02258717921a4881"

/-- Witness environment: every fetch returns "x", no snapshot on disk,
no credential, the external call fails, constant clock. -/
def envOkX : Env :=
  ⟨fun _ => Except.ok "x", fun _ => none, none, fun _ => Except.error "e",
   fun _ => ("t", "d", "i")⟩

/-- Empty initial bookkeeping state. -/
def stEmpty : BState := ⟨[], []⟩

/-- C2 witness: with the digest of "x" stored for `news`, the step
returns the state unchanged and writes nothing. -/
theorem C2_witness :
    processSource envOkX 0 ⟨[("news", digX)], []⟩ "news" "u" =
      Except.ok (⟨[("news", digX)], []⟩, []) :=
  C2_unchanged_skips_all_side_effects envOkX 0 ⟨[("news", digX)], []⟩ "news" "u" "x"
    rfl (by decide)

/-! ## Claim C5 -/

/-- C5: for a source absent from the fingerprint index and with no
"latest" snapshot on disk, the first event the iteration writes is the
diff artifact computed against the empty string as the prior content;
and the opcodes of a diff whose old side is the split of the empty
string mark the entire new content as one insertion. -/
theorem C5_first_observation_diff_all_additions :
    (∀ (env : Env) (i : Nat) (st : BState) (name url cur : String) (st2 : BState) (evs : List Ev),
      env.fetch url = Except.ok cur →
      dictGet st.hashIndex name = none →
      env.latest name = none →
      processSource env i st name url = Except.ok (st2, evs) →
      evs.head? = some (Ev.evDiff ("docs/changes/" ++ diffName name (env.times i).1)
        (diff_html "" cur)))
    ∧ (∀ bs : List String, scOpcodes (splitlines "") bs =
        if bs.isEmpty then [] else [⟨"insert", 0, 0, 0, bs.length⟩]) := by
  constructor
  · intro env i st name url cur st2 evs hf hd hl h
    rcases processSource_cases env i st name url st2 evs h with
      ⟨c2, hf2, hd2, _, _⟩ | ⟨c2, hf2, hd2, _, hevs⟩
    · rw [hf] at hf2
      injection hf2 with hc
      subst hc
      rw [hd] at hd2
      exact Option.noConfusion hd2
    · rw [hf] at hf2
      injection hf2 with hc
      subst hc
      rw [hevs, hl]
      rfl
  · intro bs
    cases bs with
    | nil => rfl
    | cons b bt =>
      have hs : splitlines "" = ([] : List String) := rfl
      rw [hs]
      simp only [scOpcodes, matchingBlocks, List.length_nil, List.length_cons,
        Nat.zero_add, matchingBlocksAux, longestMatch, Nat.sub_zero, List.range_zero,
        List.foldl_nil, List.nil_append]
      simp [opcodesFromBlocks]

/-- Witness state after processing `news` with content "x" from the
empty state. -/
def stWX : BState :=
  ⟨[("news", sha256 "x")],
   [⟨"i", "news page updated", diffName "news" "t", "OpenAI API key not configured."⟩]⟩

/-- Witness trace of that iteration. -/
def evsWX : List Ev :=
  [Ev.evDiff ("docs/changes/" ++ diffName "news" "t") (diff_html "" "x"),
   Ev.evDaily "snapshots/news/d.html" "x",
   Ev.evLatest "snapshots/news/latest.html" "x"]

/-- C5 witness: the first-observation part applied to a concrete
never-seen source. -/
theorem C5_witness :
    evsWX.head? = some (Ev.evDiff ("docs/changes/" ++ diffName "news" "t") (diff_html "" "x")) :=
  C5_first_observation_diff_all_additions.1 envOkX 0 stEmpty "news" "u" "x" stWX evsWX
    rfl rfl rfl rfl

/-! ## Claim C8 -/

/-- C8: on every detected change, the dated snapshot write strictly
precedes the "latest" snapshot write in the iteration's trace, and
every snapshot write of the iteration carries exactly the fetched
content. -/
theorem C8_snapshots_ordered_same_content :
    ∀ (env : Env) (i : Nat) (st : BState) (name url cur : String) (st2 : BState) (evs : List Ev),
      env.fetch url = Except.ok cur →
      dictGet st.hashIndex name ≠ some (sha256 cur) →
      processSource env i st name url = Except.ok (st2, evs) →
      List.Sublist
        [Ev.evDaily ("snapshots/" ++ name ++ "/" ++ (env.times i).2.1 ++ ".html") cur,
         Ev.evLatest ("snapshots/" ++ name ++ "/latest.html") cur] evs
      ∧ (∀ p c, Ev.evDaily p c ∈ evs → c = cur)
      ∧ (∀ p c, Ev.evLatest p c ∈ evs → c = cur) := by
  intro env i st name url cur st2 evs hf hne h
  rcases processSource_cases env i st name url st2 evs h with
    ⟨c2, hf2, hd2, _, _⟩ | ⟨c2, hf2, hd2, _, hevs⟩
  · rw [hf] at hf2
    injection hf2 with hc
    subst hc
    exact absurd hd2 hne
  · rw [hf] at hf2
    injection hf2 with hc
    subst hc
    subst hevs
    refine ⟨List.Sublist.cons _ (List.Sublist.refl _), ?_, ?_⟩
    · intro p c hm
      simp at hm
      exact hm.2
    · intro p c hm
      simp at hm
      exact hm.2

/-- C8 witness: the ordered snapshot writes of the concrete
first-observation iteration. -/
theorem C8_witness :
    List.Sublist
      [Ev.evDaily "snapshots/news/d.html" "x", Ev.evLatest "snapshots/news/latest.html" "x"]
      evsWX :=
  (C8_snapshots_ordered_same_content envOkX 0 stEmpty "news" "u" "x" stWX evsWX
    rfl (by decide) rfl).1

/-! ## Claim C10 -/

/-- C10: every Change Record an iteration adds has title
`name ++ " page updated"`, independent of the fetched content, and two
changes recorded for the same source name — in any two runs, with any
contents — carry identical titles. -/
theorem C10_title_depends_only_on_name :
    (∀ (env : Env) (i : Nat) (st : BState) (name url : String) (st2 : BState) (evs : List Ev),
      processSource env i st name url = Except.ok (st2, evs) →
      ∀ r ∈ st2.changeLog, r ∈ st.changeLog ∨ r.title = name ++ " page updated")
    ∧ (∀ (env env2 : Env) (i i2 : Nat) (st st2 st3 st4 : BState) (name url url2 : String)
        (evs evs2 : List Ev) (r r2 : Entry),
      processSource env i st name url = Except.ok (st3, evs) →
      st3.changeLog = r :: st.changeLog →
      processSource env2 i2 st2 name url2 = Except.ok (st4, evs2) →
      st4.changeLog = r2 :: st2.changeLog →
      r.title = r2.title) := by
  have key : ∀ (env : Env) (i : Nat) (st : BState) (name url : String) (st3 : BState)
      (evs : List Ev) (r : Entry),
      processSource env i st name url = Except.ok (st3, evs) →
      st3.changeLog = r :: st.changeLog →
      r.title = name ++ " page updated" := by
    intro env i st name url st3 evs r h hlog
    rcases processSource_cases env i st name url st3 evs h with
      ⟨c2, _, _, hst, _⟩ | ⟨c2, _, _, hst, _⟩
    · subst hst
      have := congrArg List.length hlog
      simp at this
    · rw [hst] at hlog
      simp only at hlog
      injection hlog with h1 _
      rw [← h1]
  constructor
  · intro env i st name url st2 evs h r hr
    rcases processSource_cases env i st name url st2 evs h with
      ⟨c2, _, _, hst, _⟩ | ⟨c2, _, _, hst, _⟩
    · subst hst
      exact Or.inl hr
    · rw [hst] at hr
      simp only [List.mem_cons] at hr
      rcases hr with h1 | h1
      · subst h1
        exact Or.inr rfl
      · exact Or.inl h1
  · intro env env2 i i2 st st2 st3 st4 name url url2 evs evs2 r r2 h1 h2 h3 h4
    rw [key env i st name url st3 evs r h1 h2,
        key env2 i2 st2 name url2 st4 evs2 r2 h3 h4]

/-- Second witness environment: content "y", a later clock. -/
def envOkY : Env :=
  ⟨fun _ => Except.ok "y", fun _ => none, none, fun _ => Except.error "e",
   fun _ => ("t2", "d2", "i2")⟩

/-- Witness state after processing `news` with content "y". -/
def stWY : BState :=
  ⟨[("news", sha256 "y")],
   [⟨"i2", "news page updated", diffName "news" "t2", "OpenAI API key not configured."⟩]⟩

/-- Witness trace of that iteration. -/
def evsWY : List Ev :=
  [Ev.evDiff ("docs/changes/" ++ diffName "news" "t2") (diff_html "" "y"),
   Ev.evDaily "snapshots/news/d2.html" "y",
   Ev.evLatest "snapshots/news/latest.html" "y"]

/-- C10 witness: two different changes of the same source — different
contents, different timestamps — yield records with identical titles. -/
theorem C10_witness :
    Entry.title ⟨"i", "news page updated", diffName "news" "t", "OpenAI API key not configured."⟩ =
    Entry.title ⟨"i2", "news page updated", diffName "news" "t2", "OpenAI API key not configured."⟩ :=
  C10_title_depends_only_on_name.2 envOkX envOkY 0 0 stEmpty stEmpty stWX stWY "news" "u" "u2"
    evsWX evsWY _ _ rfl rfl rfl rfl

/-! ## Run-level lemmas -/

/-- The change log only grows by prepending: a successful loop run
leaves the initial log as a suffix. -/
lemma runLoop_log_extends (env : Env) (srcs : List (String × String)) :
    ∀ (i : Nat) (st : BState) (evs : List Ev) (st2 : BState),
      runLoop env i st srcs = (evs, Except.ok st2) →
      ∃ news, st2.changeLog = news ++ st.changeLog := by
  induction srcs with
  | nil =>
    intro i st evs st2 h
    simp only [runLoop] at h
    injection h with _ h2
    injection h2 with h3
    exact ⟨[], by rw [← h3]; simp⟩
  | cons src rest ih =>
    intro i st evs st2 h
    obtain ⟨name, url⟩ := src
    simp only [runLoop] at h
    cases hps : processSource env i st name url with
    | error e =>
      rw [hps] at h
      simp at h
    | ok p =>
      obtain ⟨st3, evs3⟩ := p
      rw [hps] at h
      simp only at h
      injection h with _ h2
      obtain ⟨news2, hn2⟩ := ih (i + 1) st3 (runLoop env (i + 1) st3 rest).1 st2
        (by rw [← h2])
      rcases processSource_cases env i st name url st3 evs3 hps with
        ⟨c2, _, _, hst, _⟩ | ⟨c2, _, _, hst, _⟩
      · subst hst
        exact ⟨news2, hn2⟩
      · refine ⟨news2 ++ [⟨(env.times i).2.2, name ++ " page updated",
          diffName name (env.times i).1,
          summarize env.apiKey env.gpt (diff_html ((env.latest name).getD "") c2)⟩], ?_⟩
        rw [hn2, hst]
        simp

/-- With no credential, every record a successful loop run adds to the
change log carries the fixed not-configured fallback summary. -/
lemma runLoop_summary_fallback (env : Env) (hkey : env.apiKey = none)
    (srcs : List (String × String)) :
    ∀ (i : Nat) (st : BState) (evs : List Ev) (st2 : BState),
      runLoop env i st srcs = (evs, Except.ok st2) →
      ∀ r ∈ st2.changeLog,
        r ∈ st.changeLog ∨ r.summary = "OpenAI API key not configured." := by
  induction srcs with
  | nil =>
    intro i st evs st2 h
    simp only [runLoop] at h
    injection h with _ h2
    injection h2 with h3
    subst h3
    exact fun r hr => Or.inl hr
  | cons src rest ih =>
    intro i st evs st2 h
    obtain ⟨name, url⟩ := src
    simp only [runLoop] at h
    cases hps : processSource env i st name url with
    | error e =>
      rw [hps] at h
      simp at h
    | ok p =>
      obtain ⟨st3, evs3⟩ := p
      rw [hps] at h
      simp only at h
      injection h with _ h2
      have hrec := ih (i + 1) st3 (runLoop env (i + 1) st3 rest).1 st2 (by rw [← h2])
      intro r hr
      rcases hrec r hr with hmem | hsum
      · rcases processSource_cases env i st name url st3 evs3 hps with
          ⟨c2, _, _, hst, _⟩ | ⟨c2, _, _, hst, _⟩
        · subst hst
          exact Or.inl hmem
        · rw [hst] at hmem
          simp only [List.mem_cons] at hmem
          rcases hmem with h1 | h1
          · subst h1
            refine Or.inr ?_
            simp [summarize, hkey]
          · exact Or.inl h1
      · exact Or.inr hsum

/-- Classification of the events a loop run can write: only diff,
dated-snapshot and latest-snapshot writes. -/
def isPerSourceEv : Ev → Bool
  | Ev.evDiff _ _ => true
  | Ev.evDaily _ _ => true
  | Ev.evLatest _ _ => true
  | _ => false

/-- The source loop writes only per-source events: never the index
file, the change-log file or the landing page. -/
lemma runLoop_events_shape (env : Env) (srcs : List (String × String)) :
    ∀ (i : Nat) (st : BState) (ev : Ev),
      ev ∈ (runLoop env i st srcs).1 → isPerSourceEv ev = true := by
  induction srcs with
  | nil =>
    intro i st ev h
    simp [runLoop] at h
  | cons src rest ih =>
    intro i st ev h
    obtain ⟨name, url⟩ := src
    simp only [runLoop] at h
    cases hps : processSource env i st name url with
    | error e =>
      rw [hps] at h
      simp at h
    | ok p =>
      obtain ⟨st3, evs3⟩ := p
      rw [hps] at h
      simp only [List.mem_append] at h
      rcases h with h | h
      · rcases processSource_cases env i st name url st3 evs3 hps with
          ⟨c2, _, _, _, hevs⟩ | ⟨c2, _, _, _, hevs⟩
        · subst hevs
          simp at h
        · subst hevs
          simp only [List.mem_cons, List.not_mem_nil, or_false] at h
          rcases h with h | h | h <;> subst h <;> rfl
      · exact ih (i + 1) st3 ev h

/-- A trace of per-source events leaves the on-disk index file
untouched. -/
lemma indexFileAfter_per_source (evs : List Ev)
    (hsh : ∀ ev ∈ evs, isPerSourceEv ev = true) :
    ∀ d, indexFileAfter d evs = d := by
  induction evs with
  | nil => intro d; rfl
  | cons ev rest ih =>
    intro d
    have h1 := hsh ev (by simp)
    have h2 : ∀ e ∈ rest, isPerSourceEv e = true := fun e he => hsh e (by simp [he])
    cases ev with
    | evDiff p c => exact ih h2 d
    | evDaily p c => exact ih h2 d
    | evLatest p c => exact ih h2 d
    | evIndexFile d2 => simp [isPerSourceEv] at h1
    | evLogFile l2 => simp [isPerSourceEv] at h1
    | evHome pg => simp [isPerSourceEv] at h1

/-- A trace of per-source events leaves the on-disk change-log file
untouched. -/
lemma logFileAfter_per_source (evs : List Ev)
    (hsh : ∀ ev ∈ evs, isPerSourceEv ev = true) :
    ∀ l, logFileAfter l evs = l := by
  induction evs with
  | nil => intro l; rfl
  | cons ev rest ih =>
    intro l
    have h1 := hsh ev (by simp)
    have h2 : ∀ e ∈ rest, isPerSourceEv e = true := fun e he => hsh e (by simp [he])
    cases ev with
    | evDiff p c => exact ih h2 l
    | evDaily p c => exact ih h2 l
    | evLatest p c => exact ih h2 l
    | evIndexFile d2 => simp [isPerSourceEv] at h1
    | evLogFile l2 => simp [isPerSourceEv] at h1
    | evHome pg => simp [isPerSourceEv] at h1

/-! ## Claim C3 -/

/-- C3: when the run aborts with a fetch error, the trace contains no
write to the fingerprint-index file or the change-log file, so both
on-disk files remain exactly their initial contents. -/
theorem C3_fetch_error_leaves_index_and_log_files_untouched
    (env : Env) (init : BState) (e : String)
    (h : (runMain env init).2 = Except.error e) :
    (∀ d, indexFileAfter d (runMain env init).1 = d)
    ∧ (∀ l, logFileAfter l (runMain env init).1 = l) := by
  rcases hr : runLoop env 0 init SOURCES with ⟨evs, r⟩
  cases r with
  | ok st =>
    rw [runMain, hr] at h
    simp at h
  | error e2 =>
    have htr : (runMain env init).1 = evs := by rw [runMain, hr]
    rw [htr]
    have hsh : ∀ ev ∈ evs, isPerSourceEv ev = true := by
      intro ev hev
      exact runLoop_events_shape env SOURCES 0 init ev (by rw [hr]; exact hev)
    exact ⟨indexFileAfter_per_source evs hsh, logFileAfter_per_source evs hsh⟩

/-- Witness environment whose fetch always fails. -/
def envErr : Env :=
  ⟨fun _ => Except.error "boom", fun _ => none, none, fun _ => Except.error "e",
   fun _ => ("t", "d", "i")⟩

/-- C3 witness: a failing run leaves a concrete on-disk index file
unchanged. -/
theorem C3_witness :
    indexFileAfter [("news", digX)] (runMain envErr stEmpty).1 = [("news", digX)] :=
  (C3_fetch_error_leaves_index_and_log_files_untouched envErr stEmpty "boom" rfl).1
    [("news", digX)]

/-! ## Claim C4 -/

/-- C4: summarization is total and best-effort — with the credential
missing it returns the fixed not-configured string; with a credential
but a failing external call it returns the fixed unavailable string;
and a run without the credential gives every newly written Change
Record the not-configured summary while still persisting the change
log and the landing page. -/
theorem C4_summarize_never_aborts_fallback :
    (∀ (gpt : String → Except String String) (d : String),
      summarize none gpt d = "OpenAI API key not configured.")
    ∧ (∀ (k : String) (gpt : String → Except String String) (d msg : String),
      k ≠ "" → gpt (userContent (promptPlain d)) = Except.error msg →
      summarize (some k) gpt d = "Summary unavailable.")
    ∧ (∀ (env : Env) (init : BState) (st2 : BState),
      env.apiKey = none → (runMain env init).2 = Except.ok st2 →
      (∀ r ∈ st2.changeLog, r ∈ init.changeLog ∨ r.summary = "OpenAI API key not configured.")
      ∧ Ev.evLogFile (st2.changeLog.take 200) ∈ (runMain env init).1
      ∧ Ev.evHome (write_home st2.changeLog) ∈ (runMain env init).1) := by
  refine ⟨fun gpt d => rfl, ?_, ?_⟩
  · intro k gpt d msg hk hcall
    simp only [summarize, Option.getD]
    rw [if_neg hk, hcall]
  · intro env init st2 hkey h
    rcases hr : runLoop env 0 init SOURCES with ⟨evs, r⟩
    cases r with
    | error e2 =>
      rw [runMain, hr] at h
      simp at h
    | ok st =>
      rw [runMain, hr] at h
      simp only at h
      injection h with h2
      subst h2
      have htr : (runMain env init).1 =
          evs ++ [Ev.evIndexFile st.hashIndex, Ev.evLogFile (st.changeLog.take 200),
            Ev.evHome (write_home st.changeLog)] := by
        rw [runMain, hr]
      refine ⟨?_, ?_, ?_⟩
      · exact runLoop_summary_fallback env hkey SOURCES 0 init evs st (by rw [hr])
      · rw [htr]; simp
      · rw [htr]; simp

/-- The record produced for `policy` in the no-credential witness
run. -/
def recPX : Entry :=
  ⟨"i", "policy page updated", diffName "policy" "t", "OpenAI API key not configured."⟩

/-- The record produced for `alerts` in the no-credential witness
run. -/
def recAX : Entry :=
  ⟨"i", "alerts page updated", diffName "alerts" "t", "OpenAI API key not configured."⟩

/-- The record produced for `news` in the no-credential witness run. -/
def recNX : Entry :=
  ⟨"i", "news page updated", diffName "news" "t", "OpenAI API key not configured."⟩

/-- Final bookkeeping state of the no-credential witness run. -/
def stRunX : BState :=
  ⟨[("news", sha256 "x"), ("alerts", sha256 "x"), ("policy", sha256 "x")],
   [recPX, recAX, recNX]⟩

/-- C4 witness: in the concrete no-credential run, the head record
carries the fallback summary and the change-log write is in the
trace. -/
theorem C4_witness :
    (recPX ∈ stEmpty.changeLog ∨ recPX.summary = "OpenAI API key not configured.")
    ∧ Ev.evLogFile (stRunX.changeLog.take 200) ∈ (runMain envOkX stEmpty).1 := by
  have h := (C4_summarize_never_aborts_fallback.2.2 envOkX stEmpty stRunX rfl rfl)
  exact ⟨h.1 recPX (by simp [stRunX]), h.2.1⟩

/-! ## Claim C7 -/

/-- C7: the landing page is a pure projection of the first 50 Change
Records — entries beyond the first 50 never affect the rendered page —
and every successful run, whether or not any source changed, writes
the landing page built from the in-memory change log. -/
theorem C7_landing_page_pure_projection_always_rebuilt :
    (∀ entries : List Entry, write_home entries = write_home (entries.take 50))
    ∧ (∀ (env : Env) (init : BState) (st2 : BState),
      (runMain env init).2 = Except.ok st2 →
      Ev.evHome (write_home st2.changeLog) ∈ (runMain env init).1) := by
  constructor
  · intro entries
    rw [write_home, write_home, List.take_take]
    norm_num
  · intro env init st2 h
    rcases hr : runLoop env 0 init SOURCES with ⟨evs, r⟩
    cases r with
    | error e2 =>
      rw [runMain, hr] at h
      simp at h
    | ok st =>
      rw [runMain, hr] at h
      simp only at h
      injection h with h2
      subst h2
      have htr : (runMain env init).1 =
          evs ++ [Ev.evIndexFile st.hashIndex, Ev.evLogFile (st.changeLog.take 200),
            Ev.evHome (write_home st.changeLog)] := by
        rw [runMain, hr]
      rw [htr]
      simp

/-- Witness state with all three sources already fingerprinted as
"x". -/
def initSeen : BState := ⟨[("news", digX), ("alerts", digX), ("policy", digX)], []⟩

/-- C7 witness: a run in which nothing changed still writes the
landing page. -/
theorem C7_witness :
    Ev.evHome (write_home initSeen.changeLog) ∈ (runMain envOkX initSeen).1 :=
  C7_landing_page_pure_projection_always_rebuilt.2 envOkX initSeen initSeen (by rfl)

/-! ## Claim C1 -/

/-- C1: every successful run persists exactly the first 200 entries of
the in-memory change log (so the file never exceeds 200 entries and
truncation drops only the rear); each iteration either leaves the log
alone or inserts its new record at index 0; the run only prepends to
the initial log; and when the initial log already holds 200 records
and exactly one record was prepended, the persisted log has exactly
200 records — the new one first, the previously-oldest dropped. -/
theorem C1_change_log_newest_first_capped
    (env : Env) (init : BState) (st2 : BState)
    (h : (runMain env init).2 = Except.ok st2) :
    Ev.evLogFile (st2.changeLog.take 200) ∈ (runMain env init).1
    ∧ (st2.changeLog.take 200).length ≤ 200
    ∧ (∃ news, st2.changeLog = news ++ init.changeLog)
    ∧ (∀ (env2 : Env) (i : Nat) (s s2 : BState) (n u : String) (evs : List Ev),
        processSource env2 i s n u = Except.ok (s2, evs) →
        s2.changeLog = s.changeLog ∨ ∃ r, s2.changeLog = r :: s.changeLog)
    ∧ (∀ r : Entry, st2.changeLog = r :: init.changeLog → init.changeLog.length = 200 →
        st2.changeLog.take 200 = r :: init.changeLog.dropLast
        ∧ (st2.changeLog.take 200).length = 200) := by
  rcases hr : runLoop env 0 init SOURCES with ⟨evs, r⟩
  cases r with
  | error e2 =>
    rw [runMain, hr] at h
    simp at h
  | ok st =>
    rw [runMain, hr] at h
    simp only at h
    injection h with h2
    subst h2
    have htr : (runMain env init).1 =
        evs ++ [Ev.evIndexFile st.hashIndex, Ev.evLogFile (st.changeLog.take 200),
          Ev.evHome (write_home st.changeLog)] := by
      rw [runMain, hr]
    refine ⟨by rw [htr]; simp, ?_, ?_, ?_, ?_⟩
    · rw [List.length_take]
      omega
    · exact runLoop_log_extends env SOURCES 0 init evs st hr
    · intro env2 i s s2 n u evs2 hps
      rcases processSource_cases env2 i s n u s2 evs2 hps with
        ⟨c2, _, _, hst, _⟩ | ⟨c2, _, _, hst, _⟩
      · subst hst
        exact Or.inl rfl
      · subst hst
        exact Or.inr ⟨_, rfl⟩
    · intro r hlog hlen
      constructor
      · rw [hlog, List.dropLast_eq_take, hlen]
        show List.take (Nat.succ 199) (r :: init.changeLog) = _
        rw [List.take_succ_cons]
      · rw [hlog, List.length_take, List.length_cons, hlen]
        omega

/-- A filler record for the 200-entry witness log. -/
def eFill : Entry := ⟨"e", "e", "e", "e"⟩

/-- Initial witness state: `news` and `alerts` already fingerprinted,
`policy` new, and a change log already holding 200 records. -/
def initC1 : BState := ⟨[("news", digX), ("alerts", digX)], List.replicate 200 eFill⟩

/-- Final witness state: exactly one record was prepended. -/
def stC1 : BState :=
  ⟨[("news", digX), ("alerts", digX), ("policy", sha256 "x")],
   recPX :: List.replicate 200 eFill⟩

/-- C1 witness: with a full 200-entry log and one detected change, the
persisted log keeps exactly 200 records, the new one first and the
previously-oldest dropped. -/
theorem C1_witness :
    stC1.changeLog.take 200 = recPX :: (List.replicate 200 eFill).dropLast
    ∧ (stC1.changeLog.take 200).length = 200 :=
  (C1_change_log_newest_first_capped envOkX initC1 stC1 (by rfl)).2.2.2.2 recPX rfl
    (by simp [initC1])

/-! ## Claim C9 -/

/-- The candidate diff-artifact paths of a source list: one per source,
derived from its name and that iteration's second-precision stamp. -/
def pathsOf (env : Env) : Nat → List (String × String) → List String
  | _, [] => []
  | i, (n, _) :: rest => ("docs/changes/" ++ diffName n (env.times i).1) :: pathsOf env (i + 1) rest

/-- Diff paths written by one iteration: none, or exactly the path
derived from the source name and timestamp. -/
lemma diffPaths_processSource (env : Env) (i : Nat) (st : BState) (name url : String)
    (st2 : BState) (evs : List Ev)
    (h : processSource env i st name url = Except.ok (st2, evs)) :
    diffPaths evs = [] ∨
    diffPaths evs = ["docs/changes/" ++ diffName name (env.times i).1] := by
  rcases processSource_cases env i st name url st2 evs h with
    ⟨c2, _, _, _, hevs⟩ | ⟨c2, _, _, _, hevs⟩
  · subst hevs
    exact Or.inl rfl
  · subst hevs
    exact Or.inr rfl

/-- The diff paths written by the loop form a sublist of the candidate
paths, in source order. -/
lemma runLoop_diffPaths_sublist (env : Env) (srcs : List (String × String)) :
    ∀ (i : Nat) (st : BState),
      List.Sublist (diffPaths (runLoop env i st srcs).1) (pathsOf env i srcs) := by
  induction srcs with
  | nil =>
    intro i st
    simp [runLoop, diffPaths, pathsOf]
  | cons src rest ih =>
    intro i st
    obtain ⟨name, url⟩ := src
    simp only [runLoop]
    cases hps : processSource env i st name url with
    | error e =>
      simp only
      exact List.nil_sublist _
    | ok p =>
      obtain ⟨st3, evs3⟩ := p
      simp only [diffPaths, pathsOf, List.filterMap_append]
      rcases diffPaths_processSource env i st name url st3 evs3 hps with hd | hd
      · rw [show List.filterMap
            (fun ev => match ev with | Ev.evDiff p _ => some p | _ => none) evs3 =
            diffPaths evs3 from rfl, hd]
        exact List.Sublist.cons _ (ih (i + 1) st3)
      · rw [show List.filterMap
            (fun ev => match ev with | Ev.evDiff p _ => some p | _ => none) evs3 =
            diffPaths evs3 from rfl, hd]
        exact List.Sublist.cons₂ _ (ih (i + 1) st3)

/-- Two diff-artifact paths with source names of different first
characters differ, whatever the timestamps. -/
lemma diffPath_ne_of_head (n1 n2 t1 t2 : String) (c1 c2 : Char)
    (h1 : n1.data.getD 0 ' ' = c1) (h2 : n2.data.getD 0 ' ' = c2)
    (hl1 : 0 < n1.data.length) (hl2 : 0 < n2.data.length)
    (hne : c1 ≠ c2) :
    ("docs/changes/" ++ diffName n1 t1 : String) ≠ "docs/changes/" ++ diffName n2 t2 := by
  intro h
  have hd := congrArg String.data h
  rw [String.data_append, String.data_append] at hd
  have hd2 : (diffName n1 t1).data = (diffName n2 t2).data := List.append_cancel_left hd
  rw [diffName, diffName, String.data_append, String.data_append, String.data_append,
    String.data_append, String.data_append, String.data_append] at hd2
  rw [List.append_assoc, List.append_assoc, List.append_assoc, List.append_assoc] at hd2
  have hg := congrArg (fun l => List.getD l 0 ' ') hd2
  simp only at hg
  rw [List.getD_append _ _ _ _ hl1, List.getD_append _ _ _ _ hl2, h1, h2] at hg
  exact hne hg

/-- The candidate paths of the configured sources are pairwise
distinct, whatever the per-iteration timestamps. -/
lemma pathsOf_SOURCES_nodup (env : Env) : (pathsOf env 0 SOURCES).Nodup := by
  simp only [SOURCES, pathsOf]
  refine List.Nodup.cons ?_ (List.Nodup.cons ?_ (List.nodup_singleton _))
  · intro hmem
    simp only [List.mem_cons, List.not_mem_nil, or_false] at hmem
    rcases hmem with h | h
    · exact diffPath_ne_of_head "news" "alerts" _ _ 'n' 'a'
        rfl rfl (by decide) (by decide) (by decide) h
    · exact diffPath_ne_of_head "news" "policy" _ _ 'n' 'p'
        rfl rfl (by decide) (by decide) (by decide) h
  · intro hmem
    simp only [List.mem_cons, List.not_mem_nil, or_false] at hmem
    exact diffPath_ne_of_head "alerts" "policy" _ _ 'a' 'p'
      rfl rfl (by decide) (by decide) (by decide) hmem

/-- C9: each iteration's diff artifact is named deterministically from
the source name plus the iteration's second-precision timestamp, and
in every run the diff-artifact paths are pairwise distinct. -/
theorem C9_diff_artifact_names_unique :
    (∀ (env : Env) (i : Nat) (st : BState) (name url : String),
      diffPaths (evListOf (processSource env i st name url)) ⊆
        ["docs/changes/" ++ diffName name (env.times i).1])
    ∧ (∀ (env : Env) (init : BState), (diffPaths (runMain env init).1).Nodup) := by
  constructor
  · intro env i st name url
    cases hps : processSource env i st name url with
    | error e => simp [evListOf, diffPaths]
    | ok p =>
      obtain ⟨st3, evs3⟩ := p
      rcases diffPaths_processSource env i st name url st3 evs3 hps with hd | hd
      · simp [evListOf, hd]
      · simp [evListOf, hd]
  · intro env init
    rcases hr : runLoop env 0 init SOURCES with ⟨evs, r⟩
    have hsub : List.Sublist (diffPaths evs) (pathsOf env 0 SOURCES) := by
      have := runLoop_diffPaths_sublist env SOURCES 0 init
      rw [hr] at this
      exact this
    cases r with
    | error e2 =>
      have htr : (runMain env init).1 = evs := by rw [runMain, hr]
      rw [htr]
      exact List.Nodup.sublist hsub (pathsOf_SOURCES_nodup env)
    | ok st =>
      have htr : (runMain env init).1 =
          evs ++ [Ev.evIndexFile st.hashIndex, Ev.evLogFile (st.changeLog.take 200),
            Ev.evHome (write_home st.changeLog)] := by
        rw [runMain, hr]
      rw [htr]
      rw [diffPaths, List.filterMap_append]
      have h2 : diffPaths [Ev.evIndexFile st.hashIndex,
          Ev.evLogFile (st.changeLog.take 200), Ev.evHome (write_home st.changeLog)] = [] := rfl
      rw [show List.filterMap
          (fun ev => match ev with | Ev.evDiff p _ => some p | _ => none) evs =
          diffPaths evs from rfl]
      rw [show List.filterMap
          (fun ev => match ev with | Ev.evDiff p _ => some p | _ => none)
          [Ev.evIndexFile st.hashIndex, Ev.evLogFile (st.changeLog.take 200),
           Ev.evHome (write_home st.changeLog)] = [] from rfl]
      rw [List.append_nil]
      exact List.Nodup.sublist hsub (pathsOf_SOURCES_nodup env)

/-- C9 witness: the diff paths of the concrete run are pairwise
distinct. -/
theorem C9_witness : (diffPaths (runMain envOkX stEmpty).1).Nodup :=
  C9_diff_artifact_names_unique.2 envOkX stEmpty
